import Mathlib

/-
Verification of the campus community platform's group-chat / notification
core: a shallow embedding of `server/storage.ts` (class MemStorage) and of
the live-connection layer in the route registration module (the module that
defines `userConnections`, `typingUsers`, the `wss.on("connection")`
handler and the REST route handlers).

Modelling conventions:
* JavaScript `Map<string, V>` values are embedded as association lists
  `List (κ × V)`; `Map.get` is first-match lookup, `Map.set` replaces the
  entry for an existing key in place (keeping its position) and appends
  otherwise, `Map.delete` removes the key.  `Set<string>` is a duplicate-free
  `List` with membership-guarded insertion.
* The opaque string identifiers produced by `randomUUID()` are embedded as
  natural numbers; the generator is a monotone counter `nextUuid` carried in
  the store, so "freshness" of generated ids is the explicit hypothesis
  `uuidFresh` where a proof needs it.
* `new Date().toISOString()` / `Date.getTime()` timestamps are embedded as
  natural numbers of milliseconds, threaded into operations as an explicit
  `now` argument.  The reminder sweep's floating-point
  `hoursUntil > 23.9 && hoursUntil < 24.1` test on
  `timeDiff / 3600000` is embedded as the exact equivalent integer
  comparison on `timeDiff * 10` against `23.9 * 36000000` etc.
* The reminder dedup key `` `${event.id}-${userId}-${type}` `` is embedded
  as the triple `(eventId, userId, reminderType)`.
* Collections of MemStorage that no modelled operation reads or writes
  (announcements, groupPosts, savedEvents) are omitted from the store
  record.
-/

namespace College

/-- Opaque identifier (the embedding of the string UUIDs). -/
abbrev Uuid := Nat

/-! ## JavaScript Map / Set semantics on association lists -/

/-- `Map.get k`: first-match lookup. -/
def mapGet {κ α : Type} [DecidableEq κ] : List (κ × α) → κ → Option α
  | [], _ => none
  | p :: rest, k => if p.1 = k then some p.2 else mapGet rest k

/-- `Map.set k v`: replace the entry for an existing key in place, else append. -/
def mapSet {κ α : Type} [DecidableEq κ] : List (κ × α) → κ → α → List (κ × α)
  | [], k, v => [(k, v)]
  | p :: rest, k, v => if p.1 = k then (k, v) :: rest else p :: mapSet rest k v

/-- `Map.delete k` / `delete obj[k]`: remove the key. -/
def mapDelete {κ α : Type} [DecidableEq κ] : List (κ × α) → κ → List (κ × α)
  | [], _ => []
  | p :: rest, k => if p.1 = k then mapDelete rest k else p :: mapDelete rest k

/-- `Set.add x`: insert only when absent (JS sets are duplicate-free). -/
def setAdd {α : Type} [DecidableEq α] (s : List α) (x : α) : List α :=
  if x ∈ s then s else s ++ [x]


/-! ## Data model (shared/schema.ts) -/

/-- Platform-wide role (`userRoles = ["student", "admin"]`). -/
inductive PlatformRole where
  | student
  | admin
deriving DecidableEq

/-- Group-scoped role (`groupRoles = ["creator", "admin", "moderator", "member"]`). -/
inductive GroupRole where
  | creator
  | admin
  | moderator
  | member
deriving DecidableEq

/-- Message payload kind (`messageTypes = ["text", "image", "file"]`). -/
inductive MessageKind where
  | text
  | image
  | file
deriving DecidableEq

/-- Notification category (`notificationSchema.type`). -/
inductive NotificationKind where
  | announcement
  | event
  | group
  | message
  | system
  | reminder
deriving DecidableEq

/-- Reminder deduplication tag (`reminderType: "24h" | "1h"`). -/
inductive ReminderKind where
  | r24h
  | r1h
deriving DecidableEq

/-- `userSchema.notificationPreferences`. -/
structure NotificationPreferences where
  eventRegistration : Bool
  eventReminders24h : Bool
  eventReminders1h : Bool
deriving DecidableEq

/-- `userSchema` (fields the modelled operations read). -/
structure User where
  id : Uuid
  email : String
  password : String
  fullName : String
  department : String
  year : String
  role : PlatformRole
  avatar : Option String
  joinedGroups : List Uuid
  notificationPreferences : NotificationPreferences
deriving DecidableEq

/-- `groupSchema`. -/
structure Group where
  id : Uuid
  name : String
  description : String
  category : String
  department : Option String
  memberCount : Nat
  members : List Uuid
  memberRoles : List (Uuid × GroupRole)
  createdBy : Option Uuid
  createdAt : Nat
  icon : Option String
  postsCount : Nat
  messagesCount : Nat
  rules : Option String
  pinnedMessages : List Uuid
  lastActivityAt : Option Nat
deriving DecidableEq

/-- `messageSchema`. -/
structure Message where
  id : Uuid
  groupId : Uuid
  authorId : Uuid
  authorName : String
  authorAvatar : Option String
  content : String
  kind : MessageKind
  fileUrl : Option String
  fileName : Option String
  createdAt : Nat
  editedAt : Option Nat
  likes : Nat
  likedBy : List Uuid
  reactions : List (String × List Uuid)
  replyTo : Option Uuid
  isPinned : Bool
deriving DecidableEq

/-- `eventSchema` (`date` is the parsed start instant in milliseconds). -/
structure Event where
  id : Uuid
  title : String
  description : String
  date : Nat
  time : String
  startTime : Option String
  endTime : Option String
  location : String
  category : Option String
  tags : List String
  imageUrl : Option String
  requiresRegistration : Bool
  maxParticipants : Option Nat
  currentParticipants : Nat
  cancelled : Bool
  createdAt : Nat
  updatedAt : Option Nat
  createdBy : Uuid
deriving DecidableEq

/-- `notificationSchema`. -/
structure Notification where
  id : Uuid
  userId : Uuid
  title : String
  message : String
  kind : NotificationKind
  read : Bool
  createdAt : Nat
  link : Option String
  eventId : Option Uuid
  reminderType : Option ReminderKind
deriving DecidableEq

/-- `insertNotificationSchema` (`notificationSchema` minus id/createdAt/read). -/
structure InsertNotification where
  userId : Uuid
  title : String
  message : String
  kind : NotificationKind
  link : Option String
  eventId : Option Uuid
  reminderType : Option ReminderKind
deriving DecidableEq

/-- `insertMessageSchema` (`messageSchema` minus the server-filled fields). -/
structure InsertMessage where
  groupId : Uuid
  content : String
  kind : MessageKind
  fileUrl : Option String
  fileName : Option String
  replyTo : Option Uuid
deriving DecidableEq

/-! ## MemStorage (server/storage.ts) -/

/-- The in-memory store.  Collections no modelled operation touches
(announcements, groupPosts, savedEvents) are omitted; `nextUuid` is the
counter embedding `randomUUID()`, and `sentReminders` holds the embedded
`` `${event.id}-${userId}-${type}` `` dedup keys as triples. -/
structure MemStorage where
  users : List (Uuid × User)
  groups : List (Uuid × Group)
  messages : List (Uuid × Message)
  events : List (Uuid × Event)
  notifications : List (Uuid × Notification)
  eventRegistrations : List (Uuid × List Uuid)
  sentReminders : List (Uuid × Uuid × ReminderKind)
  nextUuid : Nat
deriving DecidableEq

/-- Stable insert for a descending-by-key sort. -/
def insertDesc {α : Type} (key : α → Nat) (x : α) : List α → List α
  | [] => [x]
  | y :: ys => if key x < key y then y :: insertDesc key x ys else x :: y :: ys

/-- Stable descending sort by key: the embedding of JS
`Array.prototype.sort((a, b) => key(b) - key(a))` (which is stable). -/
def sortDesc {α : Type} (key : α → Nat) : List α → List α
  | [] => []
  | x :: xs => insertDesc key x (sortDesc key xs)

/-- `MemStorage.getNotifications`: the user's notifications, newest first. -/
def MemStorage.getNotifications (s : MemStorage) (userId : Uuid) : List Notification :=
  sortDesc (·.createdAt) ((s.notifications.map (·.2)).filter (fun n => n.userId = userId))

/-- `MemStorage.createNotification`. -/
def MemStorage.createNotification (s : MemStorage) (ins : InsertNotification) (now : Nat) :
    Notification × MemStorage :=
  let id := s.nextUuid
  let n : Notification :=
    { id, userId := ins.userId, title := ins.title, message := ins.message
      kind := ins.kind, read := false, createdAt := now, link := ins.link
      eventId := ins.eventId, reminderType := ins.reminderType }
  (n, { s with notifications := mapSet s.notifications id n, nextUuid := id + 1 })

/-- `MemStorage.createMessage`. -/
def MemStorage.createMessage (s : MemStorage) (ins : InsertMessage) (userId : Uuid)
    (authorName : String) (authorAvatar : Option String) (now : Nat) :
    Message × MemStorage :=
  let id := s.nextUuid
  let newMessage : Message :=
    { id, groupId := ins.groupId, authorId := userId, authorName, authorAvatar
      content := ins.content, kind := ins.kind, fileUrl := ins.fileUrl
      fileName := ins.fileName, createdAt := now, editedAt := none, likes := 0
      likedBy := [], reactions := [], replyTo := ins.replyTo, isPinned := false }
  let s := { s with messages := mapSet s.messages id newMessage, nextUuid := id + 1 }
  match mapGet s.groups ins.groupId with
  | some group =>
      let group := { group with
                     messagesCount := group.messagesCount + 1
                     lastActivityAt := some now }
      (newMessage, { s with groups := mapSet s.groups ins.groupId group })
  | none => (newMessage, s)

/-- `MemStorage.deleteMessage`. -/
def MemStorage.deleteMessage (s : MemStorage) (messageId : Uuid) : Bool × MemStorage :=
  match mapGet s.messages messageId with
  | none => (false, s)
  | some message =>
      let s := { s with messages := mapDelete s.messages messageId }
      match mapGet s.groups message.groupId with
      | some group =>
          let group := { group with
                         messagesCount := group.messagesCount - 1
                         pinnedMessages := group.pinnedMessages.filter (fun i => i ≠ messageId) }
          (true, { s with groups := mapSet s.groups message.groupId group })
      | none => (true, s)

/-- `MemStorage.likeMessage` (toggle by `indexOf`/`push`/`splice`, then
recompute `likes` from the array length). -/
def MemStorage.likeMessage (s : MemStorage) (messageId userId : Uuid) :
    Option Message × MemStorage :=
  match mapGet s.messages messageId with
  | none => (none, s)
  | some message =>
      let likedBy :=
        if userId ∈ message.likedBy then message.likedBy.erase userId
        else message.likedBy ++ [userId]
      let message := { message with likedBy, likes := likedBy.length }
      (some message, { s with messages := mapSet s.messages messageId message })

/-- The reactions-object toggle inside `MemStorage.addReaction`: ensure the
emoji key (created on demand), toggle the user in its list, and delete the
key when the list empties. -/
def toggleReaction (reactions : List (String × List Uuid)) (emoji : String)
    (userId : Uuid) : List (String × List Uuid) :=
  let cur := (mapGet reactions emoji).getD []
  if userId ∈ cur then
    if cur.erase userId = [] then mapDelete reactions emoji
    else mapSet reactions emoji (cur.erase userId)
  else mapSet reactions emoji (cur ++ [userId])

/-- `MemStorage.addReaction`. -/
def MemStorage.addReaction (s : MemStorage) (messageId : Uuid) (emoji : String)
    (userId : Uuid) : Option Message × MemStorage :=
  match mapGet s.messages messageId with
  | none => (none, s)
  | some message =>
      let message := { message with reactions := toggleReaction message.reactions emoji userId }
      (some message, { s with messages := mapSet s.messages messageId message })

/-- `MemStorage.pinMessage`. -/
def MemStorage.pinMessage (s : MemStorage) (messageId : Uuid) :
    Option Message × MemStorage :=
  match mapGet s.messages messageId with
  | none => (none, s)
  | some message =>
      let message := { message with isPinned := true }
      let s := { s with messages := mapSet s.messages messageId message }
      match mapGet s.groups message.groupId with
      | some group =>
          if messageId ∈ group.pinnedMessages then (some message, s)
          else
            let group := { group with pinnedMessages := group.pinnedMessages ++ [messageId] }
            (some message, { s with groups := mapSet s.groups message.groupId group })
      | none => (some message, s)

/-- `MemStorage.unpinMessage`. -/
def MemStorage.unpinMessage (s : MemStorage) (messageId : Uuid) :
    Option Message × MemStorage :=
  match mapGet s.messages messageId with
  | none => (none, s)
  | some message =>
      let message := { message with isPinned := false }
      let s := { s with messages := mapSet s.messages messageId message }
      match mapGet s.groups message.groupId with
      | some group =>
          let group := { group with pinnedMessages := group.pinnedMessages.filter (fun i => i ≠ messageId) }
          (some message, { s with groups := mapSet s.groups message.groupId group })
      | none => (some message, s)

/-- `MemStorage.createGroup` (`insertGroupSchema` fields passed through). -/
def MemStorage.createGroup (s : MemStorage) (name description category : String)
    (department : Option String) (icon : Option String) (rules : Option String)
    (userId : Uuid) (now : Nat) : Group × MemStorage :=
  let id := s.nextUuid
  let newGroup : Group :=
    { id, name, description, category, department
      memberCount := 1, members := [userId], memberRoles := [(userId, GroupRole.creator)]
      createdBy := some userId, createdAt := now, icon
      postsCount := 0, messagesCount := 0, rules
      pinnedMessages := [], lastActivityAt := some now }
  let s := { s with groups := mapSet s.groups id newGroup, nextUuid := id + 1 }
  match mapGet s.users userId with
  | some user =>
      let user := { user with joinedGroups := user.joinedGroups ++ [id] }
      (newGroup, { s with users := mapSet s.users userId user })
  | none => (newGroup, s)

/-- `MemStorage.leaveGroup`. -/
def MemStorage.leaveGroup (s : MemStorage) (groupId userId : Uuid) :
    Option Group × MemStorage :=
  match mapGet s.groups groupId with
  | none => (none, s)
  | some group =>
      let members := group.members.filter (fun i => i ≠ userId)
      let group := { group with
                     members
                     memberCount := members.length
                     memberRoles := mapDelete group.memberRoles userId }
      let s := { s with groups := mapSet s.groups groupId group }
      match mapGet s.users userId with
      | some user =>
          let user := { user with joinedGroups := user.joinedGroups.filter (fun i => i ≠ groupId) }
          (some group, { s with users := mapSet s.users userId user })
      | none => (some group, s)

/-- `MemStorage.registerForEvent`.  The capacity guard is the JS truthiness
test `event.maxParticipants && currentParticipants >= maxParticipants`, so a
`maxParticipants` of 0 (falsy) disables the guard. -/
def MemStorage.registerForEvent (s : MemStorage) (eventId userId : Uuid) :
    Option Event × MemStorage :=
  match mapGet s.events eventId with
  | none => (none, s)
  | some event =>
      if event.cancelled then (none, s)
      else if (match event.maxParticipants with
               | some mp => mp ≠ 0 && event.currentParticipants ≥ mp
               | none => false : Bool) then (none, s)
      else
        let s :=
          match mapGet s.eventRegistrations eventId with
          | some _ => s
          | none => { s with eventRegistrations := mapSet s.eventRegistrations eventId [] }
        let registrations := (mapGet s.eventRegistrations eventId).getD []
        if userId ∈ registrations then (some event, s)
        else
          let registrations := registrations ++ [userId]
          let event := { event with currentParticipants := registrations.length }
          (some event,
           { s with
             eventRegistrations := mapSet s.eventRegistrations eventId registrations
             events := mapSet s.events eventId event })

/-- `MemStorage.unregisterFromEvent`. -/
def MemStorage.unregisterFromEvent (s : MemStorage) (eventId userId : Uuid) :
    Option Event × MemStorage :=
  match mapGet s.events eventId with
  | none => (none, s)
  | some event =>
      match mapGet s.eventRegistrations eventId with
      | some registrations =>
          if userId ∈ registrations then
            let registrations := registrations.erase userId
            let event := { event with currentParticipants := registrations.length }
            (some event,
             { s with
               eventRegistrations := mapSet s.eventRegistrations eventId registrations
               events := mapSet s.events eventId event })
          else (some event, s)
      | none => (some event, s)

/-- Whether the user preference flag for a reminder kind is on
(`eventReminders24h` / `eventReminders1h`). -/
def reminderPref (u : User) : ReminderKind → Bool
  | .r24h => u.notificationPreferences.eventReminders24h
  | .r1h => u.notificationPreferences.eventReminders1h

/-- Reminder text: `"${title} starts in 24 hours at ${location}"` / 1-hour variant. -/
def reminderText (e : Event) : ReminderKind → String
  | .r24h => e.title ++ " starts in 24 hours at " ++ e.location
  | .r1h => e.title ++ " starts in 1 hour at " ++ e.location

/-- Body of one registered user's reminder attempt inside
`MemStorage.sendReminderNotifications` (skip on existing marker, missing
user, or disabled preference; otherwise create the notification and record
the marker). -/
def reminderAttempt (e : Event) (t : ReminderKind) (now : Nat) (s : MemStorage)
    (userId : Uuid) : MemStorage :=
  if (e.id, userId, t) ∈ s.sentReminders then s
  else
    match mapGet s.users userId with
    | none => s
    | some user =>
        if reminderPref user t = false then s
        else
          let notificationId := s.nextUuid
          let n : Notification :=
            { id := notificationId, userId
              title := "Reminder: " ++ e.title
              message := reminderText e t
              kind := .reminder, read := false, createdAt := now
              link := some ("/events/" ++ toString e.id)
              eventId := some e.id, reminderType := some t }
          { s with
            notifications := mapSet s.notifications notificationId n
            nextUuid := notificationId + 1
            sentReminders := setAdd s.sentReminders (e.id, userId, t) }

/-- `MemStorage.sendReminderNotifications`. -/
def MemStorage.sendReminderNotifications (s : MemStorage) (e : Event) (t : ReminderKind)
    (now : Nat) : MemStorage :=
  match mapGet s.eventRegistrations e.id with
  | none => s
  | some registrations => registrations.foldl (reminderAttempt e t now) s

/-- `hoursUntil > 23.9 && hoursUntil < 24.1` where
`hoursUntil = timeDiff / 3600000`, as the exact integer comparison. -/
def in24hWindow (timeDiff : Int) : Prop :=
  860400000 < timeDiff * 10 ∧ timeDiff * 10 < 867600000

/-- `hoursUntil > 0.9 && hoursUntil < 1.1`, as the exact integer comparison. -/
def in1hWindow (timeDiff : Int) : Prop :=
  32400000 < timeDiff * 10 ∧ timeDiff * 10 < 39600000

instance (d : Int) : Decidable (in24hWindow d) := by unfold in24hWindow; infer_instance

instance (d : Int) : Decidable (in1hWindow d) := by unfold in1hWindow; infer_instance

/-- One pass of the 5-minute interval body of
`MemStorage.scheduleEventReminders`, at wall-clock `now` (milliseconds). -/
def MemStorage.reminderSweepPass (s : MemStorage) (now : Nat) : MemStorage :=
  (s.events.map (·.2)).foldl
    (fun s e =>
      let timeDiff : Int := (e.date : Int) - (now : Int)
      let s := if in24hWindow timeDiff then s.sendReminderNotifications e .r24h now else s
      if in1hWindow timeDiff then s.sendReminderNotifications e .r1h now else s)
    s

/-! ## Live-connection layer (route registration module) -/

/-- A WebSocket handle: `connId` is object identity, `openState` is
`readyState === WebSocket.OPEN`. -/
structure WsConn where
  connId : Nat
  openState : Bool
deriving DecidableEq

/-- One `typingUsers` inner-map entry: `{ userName, timeout }` with the
timer handle embedded as a numeric id. -/
structure TypingEntry where
  userName : String
  timerId : Nat
deriving DecidableEq

/-- The module-level mutable maps `userConnections` and `typingUsers`. -/
structure WsState where
  userConnections : List (Uuid × WsConn)
  typingUsers : List (Uuid × List (Uuid × TypingEntry))
deriving DecidableEq

/-- Outbound server frames (the JSON envelopes `{ type, data }`). -/
inductive ServerFrame where
  | notifications (data : List Notification)
  | notification (data : Notification)
  | typingUpdate (groupId : Uuid) (typingList : List (Uuid × String))
  | messageCreated (data : Message)
deriving DecidableEq

/-- The JWT payload the handshake recovers from `verifyToken`
(the fields the connection handler reads). -/
structure Decoded where
  id : Uuid
  fullName : String
deriving DecidableEq

/-- Result of the `wss.on("connection")` handshake. -/
inductive HandshakeResult where
  | closed (code : Nat) (reason : String)
  | accepted (userId : Uuid) (initialFrame : ServerFrame)
deriving DecidableEq

/-- The `wss.on("connection")` handler: token check, `verifyToken`, registry
insert, and the immediate `notifications` catch-up frame.  `verify` is the
external `verifyToken` from the auth module. -/
def onConnection (verify : String → Option Decoded) (token : Option String)
    (ws : WsConn) (st : WsState) (store : MemStorage) : WsState × HandshakeResult :=
  match token with
  | none => (st, .closed 1008 "Authentication required")
  | some t =>
      match verify t with
      | none => (st, .closed 1008 "Invalid token")
      | some decoded =>
          ({ st with userConnections := mapSet st.userConnections decoded.id ws },
           .accepted decoded.id (.notifications (store.getNotifications decoded.id)))

/-- The `ws.on("close")` handler for a connection whose token decoded to
`userId`: it deletes the `userConnections` entry for that userId
(unconditionally — the handle itself is never consulted), clears and removes
every typing entry of that user across all groups, and sends nothing.
Returns the new state, the cleared timer ids, and the sent frames. -/
def onSocketClose (st : WsState) (userId : Uuid) :
    WsState × List Nat × List (Uuid × ServerFrame) :=
  let cleared := st.typingUsers.foldr
    (fun p acc =>
      match mapGet p.2 userId with
      | some entry => entry.timerId :: acc
      | none => acc) []
  ({ userConnections := mapDelete st.userConnections userId
     typingUsers := st.typingUsers.map (fun p => (p.1, mapDelete p.2 userId)) },
   cleared, [])

/-! ## Route handlers (the REST surface the claims touch) -/

/-- `req.user` as attached by the auth middleware. -/
structure ReqUser where
  id : Uuid
  fullName : String
  avatar : Option String
  role : PlatformRole
deriving DecidableEq

/-- Notification text built by the message route:
`"${fullName}: ${content.substring(0, 50)}${content.length > 50 ? ... : ""}"`. -/
def messageNotificationText (fullName content : String) : String :=
  fullName ++ ": " ++ (content.take 50) ++ (if content.length > 50 then "..." else "")

/-- The `POST /api/groups/:id/messages` handler (body already validated by
`insertMessageSchema`): 404 when the group is missing, 403 when the caller
is not a member, otherwise persist the message and create (and push) one
`message`-kind notification per other member.  Returns the HTTP status and
the updated store; push frames are delivered via the session registry and
are not part of the durable state. -/
def createMessageRoute (s : MemStorage) (caller : ReqUser) (groupId : Uuid)
    (body : InsertMessage) (now : Nat) : Nat × MemStorage :=
  match mapGet s.groups groupId with
  | none => (404, s)
  | some group =>
      if caller.id ∈ group.members then
        let (message, s) := s.createMessage { body with groupId } caller.id
          caller.fullName caller.avatar now
        let s := group.members.foldl
          (fun s memberId =>
            if memberId = caller.id then s
            else
              (s.createNotification
                { userId := memberId
                  title := "New message in " ++ group.name
                  message := messageNotificationText caller.fullName message.content
                  kind := .message
                  link := some ("/groups/" ++ toString groupId)
                  eventId := none, reminderType := none } now).2)
          s
        (201, s)
      else (403, s)

/-! ## Invariants, operation sequences, and counters used by the claims -/

/-- The empty store (`new MemStorage()` before seeding). -/
def emptyStore : MemStorage :=
  { users := [], groups := [], messages := [], events := [], notifications := []
    eventRegistrations := [], sentReminders := [], nextUuid := 0 }

/-- Freshness of the uuid supply relative to the notifications map: every
existing key predates the counter (true of any store actually produced by
the code, where keys come from the generator). -/
def uuidFresh (s : MemStorage) : Prop :=
  ∀ p ∈ s.notifications, p.1 < s.nextUuid

instance (s : MemStorage) : Decidable (uuidFresh s) := by
  unfold uuidFresh; infer_instance

/-- Number of notifications in the store satisfying `q`. -/
def notifCountP (s : MemStorage) (q : Notification → Bool) : Nat :=
  s.notifications.countP (fun p => q p.2)

/-- `k` successive `likeMessage(messageId, userId)` calls. -/
def likeIter (s : MemStorage) (messageId userId : Uuid) : Nat → MemStorage
  | 0 => s
  | k + 1 => ((likeIter s messageId userId k).likeMessage messageId userId).2

/-- The pin-related message operations of the Group Messaging Service. -/
inductive MsgOp where
  | pin (messageId : Uuid)
  | unpin (messageId : Uuid)
  | del (messageId : Uuid)

/-- Apply one pin-related operation (result value discarded). -/
def applyMsgOp (s : MemStorage) : MsgOp → MemStorage
  | .pin i => (s.pinMessage i).2
  | .unpin i => (s.unpinMessage i).2
  | .del i => (s.deleteMessage i).2

/-- Apply a sequence of pin-related operations. -/
def applyMsgOps (s : MemStorage) (ops : List MsgOp) : MemStorage :=
  ops.foldl applyMsgOp s

/-- Agreement of one message entry with its owning group (vacuous when the
group is absent). -/
def msgEntryOk (s : MemStorage) (p : Uuid × Message) : Prop :=
  ∀ g, mapGet s.groups p.2.groupId = some g → (p.2.isPinned = true ↔ p.1 ∈ g.pinnedMessages)

instance (s : MemStorage) (p : Uuid × Message) : Decidable (msgEntryOk s p) :=
  match h : mapGet s.groups p.2.groupId with
  | none =>
      isTrue (by intro g hg; rw [h] at hg; cases hg)
  | some g0 =>
      decidable_of_iff (p.2.isPinned = true ↔ p.1 ∈ g0.pinnedMessages)
        (by
          constructor
          · intro hh g hg
            rw [h] at hg
            cases hg
            exact hh
          · intro hall
            exact hall g0 h)

/-- The `isPinned` / `pinnedMessages` dual-write invariant, plus the shape
facts (duplicate-free pinned lists and map keys) it rides on. -/
def pinConsistent (s : MemStorage) : Prop :=
  (∀ p ∈ s.messages, msgEntryOk s p) ∧
  (∀ q ∈ s.groups, q.2.pinnedMessages.Nodup) ∧
  (s.messages.map (·.1)).Nodup ∧
  (s.groups.map (·.1)).Nodup

instance (s : MemStorage) : Decidable (pinConsistent s) := by
  unfold pinConsistent; infer_instance

/-- The registration set of an event (absent map entry reads as empty). -/
def registrationsOf (s : MemStorage) (eventId : Uuid) : List Uuid :=
  (mapGet s.eventRegistrations eventId).getD []

/-- `currentParticipants` agrees with the registration-set size for every
event, plus the shape facts (duplicate-free sets and map keys). -/
def participantsConsistent (s : MemStorage) : Prop :=
  (∀ p ∈ s.events, p.2.currentParticipants = (registrationsOf s p.1).length) ∧
  (∀ q ∈ s.eventRegistrations, q.2.Nodup) ∧
  (s.events.map (·.1)).Nodup ∧
  (s.eventRegistrations.map (·.1)).Nodup

instance (s : MemStorage) : Decidable (participantsConsistent s) := by
  unfold participantsConsistent registrationsOf; infer_instance

/-- The event register/unregister operations. -/
inductive EvOp where
  | reg (eventId userId : Uuid)
  | unreg (eventId userId : Uuid)

/-- Apply one registration operation (result value discarded). -/
def applyEvOp (s : MemStorage) : EvOp → MemStorage
  | .reg e u => (s.registerForEvent e u).2
  | .unreg e u => (s.unregisterFromEvent e u).2

/-- Apply a sequence of registration operations. -/
def applyEvOps (s : MemStorage) (ops : List EvOp) : MemStorage :=
  ops.foldl applyEvOp s

/-! ## Concrete scenario values -/

/-- Whether a frame is a `typing_update` for the given group. -/
def typingUpdateFor (f : ServerFrame) (groupId : Uuid) : Bool :=
  match f with
  | .typingUpdate g _ => g == groupId
  | _ => false

/-- Concrete `verifyToken` used by the connection scenarios: accepts the
token "tok2" for user 7 ("Ada"). -/
def verifyEx (t : String) : Option Decoded :=
  if t = "tok2" then some ⟨7, "Ada"⟩ else none

/-- Registry state after connection 1 and then connection 2 both complete
the handshake for user 7 (connection 2 replaces connection 1). -/
def stAfterReplace : WsState :=
  (onConnection verifyEx (some "tok2") ⟨2, true⟩
    (onConnection verifyEx (some "tok2") ⟨1, true⟩ ⟨[], []⟩ emptyStore).1 emptyStore).1

/-- Connection state with user 1 connected and user 0 typing in group 10. -/
def stEx3 : WsState :=
  ⟨[(0, ⟨1, true⟩), (1, ⟨2, true⟩)], [(10, [(0, ⟨"Ann", 99⟩)])]⟩

/-- A freshly created message (no likes, no reactions, unpinned) in group 5. -/
def msgEx : Message :=
  { id := 0, groupId := 5, authorId := 1, authorName := "Ann", authorAvatar := none
    content := "hi", kind := .text, fileUrl := none, fileName := none
    createdAt := 0, editedAt := none, likes := 0, likedBy := [], reactions := []
    replyTo := none, isPinned := false }

/-- A store holding just that message. -/
def sExMsg : MemStorage := { emptyStore with messages := [(0, msgEx)], nextUuid := 1 }

/-- A two-member group (creator 1, member 2) keyed by id 20. -/
def groupEx : Group :=
  { id := 20, name := "Chess Club", description := "d", category := "c", department := none
    memberCount := 2, members := [1, 2], memberRoles := [(1, .creator), (2, .member)]
    createdBy := some 1, createdAt := 0, icon := none, postsCount := 0, messagesCount := 0
    rules := none, pinnedMessages := [], lastActivityAt := none }

/-- A store holding just that group. -/
def sEx1 : MemStorage := { emptyStore with groups := [(20, groupEx)], nextUuid := 100 }

/-- The authenticated caller (user 1) of the concrete route scenarios. -/
def callerEx : ReqUser := ⟨1, "Ann", none, .student⟩

/-- A validated message body for group 20. -/
def bodyEx : InsertMessage := ⟨20, "hello", .text, none, none, none⟩

/-- Group 20 after member 2 leaves. -/
def leaveExGroup : Group :=
  { groupEx with members := [1], memberCount := 1, memberRoles := [(1, .creator)] }

/-- An event whose `maxParticipants` is 0 (falsy in JS, so the capacity
guard is skipped). -/
def eventZeroCap : Event :=
  { id := 40, title := "T", description := "", date := 0, time := "10:00"
    startTime := none, endTime := none, location := "L", category := none, tags := []
    imageUrl := none, requiresRegistration := true, maxParticipants := some 0
    currentParticipants := 0, cancelled := false, createdAt := 0, updatedAt := none
    createdBy := 1 }

/-- A store holding just the zero-capacity event. -/
def sExZero : MemStorage := { emptyStore with events := [(40, eventZeroCap)] }

/-- An event at its (nonzero) capacity. -/
def eventFull : Event :=
  { eventZeroCap with id := 41, maxParticipants := some 2, currentParticipants := 2 }

/-- A store holding just the full event (its two registrants elided — only
the counter is consulted by the guard). -/
def sExFull : MemStorage :=
  { emptyStore with events := [(41, eventFull)], eventRegistrations := [(41, [8, 9])] }

/-- The group (id 5) owning the fresh message of `sExMsg`. -/
def gEx5 : Group :=
  { groupEx with id := 5, members := [1], memberRoles := [(1, .creator)], memberCount := 1 }

/-- A consistent store holding group 5 and its unpinned message 0. -/
def sExPin : MemStorage :=
  { emptyStore with groups := [(5, gEx5)], messages := [(0, msgEx)], nextUuid := 30 }

/-- A registered student with all reminder preferences on. -/
def uEx6 : User :=
  { id := 4, email := "s@c.edu", password := "x", fullName := "Sam"
    department := "Mathematics", year := "1st Year", role := .student, avatar := none
    joinedGroups := [], notificationPreferences := ⟨true, true, true⟩ }

/-- An event starting at t = 172800000 ms. -/
def eEx6 : Event :=
  { id := 30, title := "Expo", description := "", date := 172800000, time := "09:00"
    startTime := none, endTime := none, location := "Hall", category := none, tags := []
    imageUrl := none, requiresRegistration := true, maxParticipants := none
    currentParticipants := 1, cancelled := false, createdAt := 0, updatedAt := none
    createdBy := 1 }

/-- A store with that one event and user 4 registered for it. -/
def sEx6 : MemStorage :=
  { emptyStore with
    users := [(4, uEx6)]
    events := [(30, eEx6)]
    eventRegistrations := [(30, [4])]
    nextUuid := 50 }


/-! ## Lemmas about the Map/Set embedding -/

@[simp] theorem mapGet_nil {κ α : Type} [DecidableEq κ] (k : κ) :
    mapGet ([] : List (κ × α)) k = none := rfl

@[simp] theorem mapGet_cons {κ α : Type} [DecidableEq κ] (p : κ × α) (rest : List (κ × α)) (k : κ) :
    mapGet (p :: rest) k = if p.1 = k then some p.2 else mapGet rest k := rfl

theorem mapGet_mapSet_self {κ α : Type} [DecidableEq κ] (m : List (κ × α)) (k : κ) (v : α) :
    mapGet (mapSet m k v) k = some v := by
  induction m with
  | nil => simp [mapSet, mapGet]
  | cons p rest ih =>
      by_cases h : p.1 = k
      · simp [mapSet, h, mapGet]
      · simp [mapSet, h, mapGet, ih]

theorem mapGet_mapSet_ne {κ α : Type} [DecidableEq κ] (m : List (κ × α)) (k k' : κ) (v : α)
    (h : k' ≠ k) : mapGet (mapSet m k v) k' = mapGet m k' := by
  induction m with
  | nil => simp [mapSet, mapGet, Ne.symm h]
  | cons p rest ih =>
      by_cases hp : p.1 = k
      · have hp' : p.1 ≠ k' := by rw [hp]; exact Ne.symm h
        simp [mapSet, hp, mapGet, Ne.symm h, hp']
      · simp [mapSet, hp, mapGet, ih]

theorem mapGet_mapDelete_self {κ α : Type} [DecidableEq κ] (m : List (κ × α)) (k : κ) :
    mapGet (mapDelete m k) k = none := by
  induction m with
  | nil => rfl
  | cons p rest ih =>
      by_cases h : p.1 = k
      · rw [mapDelete, if_pos h]; exact ih
      · rw [mapDelete, if_neg h, mapGet_cons, if_neg h]; exact ih

theorem mapGet_mapDelete_ne {κ α : Type} [DecidableEq κ] (m : List (κ × α)) (k k' : κ)
    (h : k' ≠ k) : mapGet (mapDelete m k) k' = mapGet m k' := by
  induction m with
  | nil => rfl
  | cons p rest ih =>
      by_cases hp : p.1 = k
      · have hp' : p.1 ≠ k' := by rw [hp]; exact Ne.symm h
        rw [mapDelete, if_pos hp, mapGet_cons, if_neg hp']
        exact ih
      · rw [mapDelete, if_neg hp, mapGet_cons, mapGet_cons]
        by_cases hp' : p.1 = k'
        · simp [hp']
        · simp [hp', ih]

/-- When the key is absent, `Map.set` is exactly an append. -/
theorem mapSet_eq_append {κ α : Type} [DecidableEq κ] (m : List (κ × α)) (k : κ) (v : α)
    (h : mapGet m k = none) : mapSet m k v = m ++ [(k, v)] := by
  induction m with
  | nil => simp [mapSet]
  | cons p rest ih =>
      by_cases hp : p.1 = k
      · simp [mapGet, hp] at h
      · simp only [mapGet, if_neg hp] at h
        simp [mapSet, hp, ih h]

theorem mapSet_keys {κ α : Type} [DecidableEq κ] (m : List (κ × α)) (k : κ) (v : α)
    (h : (mapGet m k).isSome) : (mapSet m k v).map (·.1) = m.map (·.1) := by
  induction m with
  | nil => simp [mapGet] at h
  | cons p rest ih =>
      by_cases hp : p.1 = k
      · simp [mapSet, hp]
      · simp only [mapGet, if_neg hp] at h
        simp [mapSet, hp, ih h]

/-- Membership in the result of `mapSet`, assuming duplicate-free keys. -/
theorem mem_mapSet {κ α : Type} [DecidableEq κ] {m : List (κ × α)} {k : κ} {v : α}
    (hnd : (m.map (·.1)).Nodup) (p : κ × α) :
    p ∈ mapSet m k v ↔ p = (k, v) ∨ (p ∈ m ∧ p.1 ≠ k) := by
  induction m with
  | nil => simp [mapSet]
  | cons q rest ih =>
      simp only [List.map_cons, List.nodup_cons, List.mem_map] at hnd
      by_cases hq : q.1 = k
      · rw [mapSet, if_pos hq]
        simp only [List.mem_cons]
        constructor
        · rintro (rfl | hp)
          · exact Or.inl rfl
          · exact Or.inr ⟨Or.inr hp, fun hk => hnd.1 ⟨p, hp, hk.trans hq.symm⟩⟩
        · rintro (rfl | ⟨(rfl | hp), hne⟩)
          · exact Or.inl rfl
          · exact absurd hq hne
          · exact Or.inr hp
      · rw [mapSet, if_neg hq]
        simp only [List.mem_cons, ih hnd.2]
        constructor
        · rintro (rfl | rfl | ⟨hp, hne⟩)
          · exact Or.inr ⟨Or.inl rfl, hq⟩
          · exact Or.inl rfl
          · exact Or.inr ⟨Or.inr hp, hne⟩
        · rintro (rfl | ⟨(rfl | hp), hne⟩)
          · exact Or.inr (Or.inl rfl)
          · exact Or.inl rfl
          · exact Or.inr (Or.inr ⟨hp, hne⟩)

theorem mem_mapDelete {κ α : Type} [DecidableEq κ] {m : List (κ × α)} {k : κ} (p : κ × α) :
    p ∈ mapDelete m k ↔ p ∈ m ∧ p.1 ≠ k := by
  induction m with
  | nil => simp [mapDelete]
  | cons q rest ih =>
      by_cases hq : q.1 = k
      · rw [mapDelete, if_pos hq, ih]
        simp only [List.mem_cons]
        constructor
        · rintro ⟨hp, hne⟩; exact ⟨Or.inr hp, hne⟩
        · rintro ⟨(rfl | hp), hne⟩
          · exact absurd hq hne
          · exact ⟨hp, hne⟩
      · rw [mapDelete, if_neg hq]
        simp only [List.mem_cons, ih]
        constructor
        · rintro (rfl | ⟨hp, hne⟩)
          · exact ⟨Or.inl rfl, hq⟩
          · exact ⟨Or.inr hp, hne⟩
        · rintro ⟨(rfl | hp), hne⟩
          · exact Or.inl rfl
          · exact Or.inr ⟨hp, hne⟩

theorem mapSet_keys_nodup {κ α : Type} [DecidableEq κ] {m : List (κ × α)} {k : κ} {v : α}
    (hnd : (m.map (·.1)).Nodup) : ((mapSet m k v).map (·.1)).Nodup := by
  induction m with
  | nil => simp [mapSet]
  | cons q rest ih =>
      simp only [List.map_cons, List.nodup_cons, List.mem_map] at hnd
      by_cases hq : q.1 = k
      · rw [mapSet, if_pos hq]
        simp only [List.map_cons, List.nodup_cons, List.mem_map]
        refine ⟨?_, hnd.2⟩
        rintro ⟨a, ha, hkey⟩
        exact hnd.1 ⟨a, ha, hkey.trans hq.symm⟩
      · rw [mapSet, if_neg hq]
        simp only [List.map_cons, List.nodup_cons, List.mem_map]
        refine ⟨?_, ih hnd.2⟩
        rintro ⟨a, ha, hkey⟩
        rcases (mem_mapSet hnd.2 a).mp ha with rfl | ⟨ha', _⟩
        · exact hq hkey.symm
        · exact hnd.1 ⟨a, ha', hkey⟩

theorem mapDelete_keys_nodup {κ α : Type} [DecidableEq κ] {m : List (κ × α)} {k : κ}
    (hnd : (m.map (·.1)).Nodup) : ((mapDelete m k).map (·.1)).Nodup := by
  induction m with
  | nil => simp [mapDelete]
  | cons q rest ih =>
      simp only [List.map_cons, List.nodup_cons, List.mem_map] at hnd
      by_cases hq : q.1 = k
      · rw [mapDelete, if_pos hq]; exact ih hnd.2
      · rw [mapDelete, if_neg hq]
        simp only [List.map_cons, List.nodup_cons, List.mem_map]
        refine ⟨?_, ih hnd.2⟩
        rintro ⟨a, ha, hkey⟩
        exact hnd.1 ⟨a, ((mem_mapDelete (m := rest) (k := k) a).mp ha).1, hkey⟩

/-! ## Claims about the live-connection layer -/

/-- C2 counterexample: user 7 registers connection 1, then connection 2
replaces it; when the old connection's close handler runs, the registry no
longer maps user 7 to connection 2 — the handler deletes the entry
unconditionally, so the claim that the newer entry survives is false. -/
theorem claim2_counterexample :
    ¬ mapGet (onSocketClose stAfterReplace 7).1.userConnections 7 = some ⟨2, true⟩ := by
  decide

/-- C2 amended: the close handler removes the session-registry entry for its
userId unconditionally (the stored handle is never compared to the closing
one), so after connection B replaces connection A for a user, A's close
event leaves the registry with no entry at all for that user — B's entry is
evicted. -/
theorem claim2_amended (verify : String → Option Decoded) (tA tB : String)
    (dA dB : Decoded) (cA cB : WsConn) (st : WsState) (store1 store2 : MemStorage)
    (u : Uuid) (hA : verify tA = some dA) (hB : verify tB = some dB)
    (_huA : dA.id = u) (huB : dB.id = u) :
    mapGet (onConnection verify (some tB) cB
        (onConnection verify (some tA) cA st store1).1 store2).1.userConnections u
      = some cB ∧
    mapGet (onSocketClose
        (onConnection verify (some tB) cB
          (onConnection verify (some tA) cA st store1).1 store2).1 u).1.userConnections u
      = none := by
  constructor
  · simp [onConnection, hA, hB, huB, mapGet_mapSet_self]
  · simp [onConnection, hA, hB, onSocketClose, mapGet_mapDelete_self]

/-- C2 amended witness: the eviction at the concrete replacement scenario. -/
theorem claim2_amended_witness :
    mapGet (onConnection verifyEx (some "tok2") ⟨2, true⟩
        (onConnection verifyEx (some "tok2") ⟨1, true⟩ ⟨[], []⟩ emptyStore).1
        emptyStore).1.userConnections 7 = some ⟨2, true⟩ ∧
    mapGet (onSocketClose
        (onConnection verifyEx (some "tok2") ⟨2, true⟩
          (onConnection verifyEx (some "tok2") ⟨1, true⟩ ⟨[], []⟩ emptyStore).1
          emptyStore).1 7).1.userConnections 7 = none :=
  claim2_amended verifyEx "tok2" "tok2" ⟨7, "Ada"⟩ ⟨7, "Ada"⟩ ⟨1, true⟩ ⟨2, true⟩
    ⟨[], []⟩ emptyStore emptyStore 7 (by decide) (by decide) rfl rfl

/-- C3 counterexample: user 0 has a typing entry in group 10 (whose members
include the connected user 1); the user-0 disconnect handler sends no frame
at all — in particular no `typing_update` for group 10 — refuting the
claimed broadcast of updated typing lists on disconnect. -/
theorem claim3_counterexample :
    (onSocketClose stEx3 0).2.2 = [] ∧
    ¬ ∃ p ∈ (onSocketClose stEx3 0).2.2, typingUpdateFor p.2 10 = true := by
  decide

/-- C3 amended: the disconnect handler does remove every typing entry of the
disconnecting user across all groups (clearing the timers), but it
broadcasts nothing — no `typing_update` frame is sent for the affected
groups. -/
theorem claim3_amended (st : WsState) (u : Uuid) :
    (∀ p ∈ (onSocketClose st u).1.typingUsers, mapGet p.2 u = none) ∧
    (onSocketClose st u).2.2 = [] := by
  constructor
  · intro p hp
    simp only [onSocketClose, List.mem_map] at hp
    obtain ⟨q, hq, rfl⟩ := hp
    exact mapGet_mapDelete_self q.2 u
  · rfl

/-- C9: the push-channel handshake closes with code 1008 and an unchanged
registry when the bearer token is missing or fails verification, and on
success registers the connection and immediately sends a `notifications`
frame carrying the user's full current notification list. -/
theorem claim9_handshake (verify : String → Option Decoded) (token : Option String)
    (ws : WsConn) (st : WsState) (store : MemStorage) :
    (token = none →
       onConnection verify token ws st store = (st, .closed 1008 "Authentication required")) ∧
    (∀ t, token = some t → verify t = none →
       onConnection verify token ws st store = (st, .closed 1008 "Invalid token")) ∧
    (∀ t d, token = some t → verify t = some d →
       onConnection verify token ws st store =
         ({ st with userConnections := mapSet st.userConnections d.id ws },
          .accepted d.id (.notifications (store.getNotifications d.id)))) := by
  refine ⟨?_, ?_, ?_⟩
  · rintro rfl
    rfl
  · rintro t rfl hv
    simp [onConnection, hv]
  · rintro t d rfl hv
    simp [onConnection, hv]

/-- C9 witness: the successful-handshake branch at a concrete verifier,
token, and empty registry/store. -/
theorem claim9_handshake_witness :
    onConnection verifyEx (some "tok2") ⟨3, true⟩ ⟨[], []⟩ emptyStore =
      (⟨[(7, ⟨3, true⟩)], []⟩, .accepted 7 (.notifications [])) := by
  have h := (claim9_handshake verifyEx (some "tok2") ⟨3, true⟩ ⟨[], []⟩ emptyStore).2.2
    "tok2" ⟨7, "Ada"⟩ rfl (by decide)
  rw [h]
  rfl
/-! ## Claims about message likes and reactions -/

/-- One `likeMessage` call on a present message: the stored message becomes
the toggled one with `likes` recomputed from the array length. -/
theorem likeMessage_step (s : MemStorage) (mid uid : Uuid) (mk : Message)
    (hget : mapGet s.messages mid = some mk) :
    mapGet (s.likeMessage mid uid).2.messages mid =
      some { mk with
             likedBy := if uid ∈ mk.likedBy then mk.likedBy.erase uid else mk.likedBy ++ [uid]
             likes := (if uid ∈ mk.likedBy then mk.likedBy.erase uid
                       else mk.likedBy ++ [uid]).length } := by
  simp only [MemStorage.likeMessage, hget]
  exact mapGet_mapSet_self _ _ _

/-- C7: iterated `likeMessage` calls by one user on one message alternate the
user's membership in `likedBy` (parity-indexed relative to the start), keep
`likedBy` duplicate-free, and after every call `likes` equals the size of
`likedBy`. -/
theorem claim7_like_toggle (s : MemStorage) (mid uid : Uuid) (m : Message)
    (hm : mapGet s.messages mid = some m) (hnd : m.likedBy.Nodup) :
    ∀ k, ∃ mk, mapGet (likeIter s mid uid k).messages mid = some mk ∧
      mk.likedBy.Nodup ∧
      ((uid ∈ mk.likedBy) ↔ ((uid ∈ m.likedBy) ↔ k % 2 = 0)) ∧
      (1 ≤ k → mk.likes = mk.likedBy.length) := by
  intro k
  induction k with
  | zero =>
      refine ⟨m, hm, hnd, by simp, ?_⟩
      intro h
      omega
  | succ k ih =>
      obtain ⟨mk, hget, hndk, hmem, _⟩ := ih
      have hstep := likeMessage_step (likeIter s mid uid k) mid uid mk hget
      have hpar : ((k + 1) % 2 = 0) ↔ ¬ (k % 2 = 0) := by omega
      by_cases hin : uid ∈ mk.likedBy
      · rw [if_pos hin] at hstep
        refine ⟨_, hstep, hndk.erase uid, ?_, fun _ => rfl⟩
        have hnot : uid ∉ mk.likedBy.erase uid := by
          intro hcon
          exact ((List.Nodup.mem_erase_iff hndk).mp hcon).1 rfl
        simp only [hnot, false_iff, hpar]
        have h2 := hmem.mp hin
        tauto
      · rw [if_neg hin] at hstep
        refine ⟨_, hstep, ?_, ?_, fun _ => rfl⟩
        · simp only [List.nodup_append, List.nodup_cons, List.not_mem_nil,
            not_false_eq_true, List.nodup_nil, and_true, true_and]
          refine ⟨hndk, ?_⟩
          intro x hx hx'
          simp only [List.mem_singleton] at hx'
          subst hx'
          exact hin hx
        · have hmem' : uid ∈ mk.likedBy ++ [uid] := by simp
          simp only [hmem', true_iff, hpar]
          tauto

/-- C7 witness: two like calls by user 3 on the concrete fresh message. -/
theorem claim7_like_toggle_witness :
    ∃ mk, mapGet (likeIter sExMsg 0 3 2).messages 0 = some mk ∧
      mk.likedBy.Nodup ∧
      ((3 ∈ mk.likedBy) ↔ ((3 ∈ msgEx.likedBy) ↔ 2 % 2 = 0)) ∧
      (1 ≤ 2 → mk.likes = mk.likedBy.length) :=
  claim7_like_toggle sExMsg 0 3 msgEx (by decide) (by decide) 2

/-- One `addReaction` call on a present message: the stored message becomes
the one with the toggled reactions mapping. -/
theorem addReaction_step (s : MemStorage) (mid : Uuid) (emoji : String) (uid : Uuid)
    (mk : Message) (hget : mapGet s.messages mid = some mk) :
    mapGet (s.addReaction mid emoji uid).2.messages mid =
      some { mk with reactions := toggleReaction mk.reactions emoji uid } := by
  simp only [MemStorage.addReaction, hget]
  exact mapGet_mapSet_self _ _ _

/-- C8: two successive `addReaction` calls with the same message, emoji and
user, starting from a state with no entry for that emoji, leave the
reactions mapping with no entry for that emoji (the user list empties and
the key is deleted). -/
theorem claim8_reaction_roundtrip (s : MemStorage) (mid uid : Uuid) (emoji : String)
    (m : Message) (hm : mapGet s.messages mid = some m)
    (he : mapGet m.reactions emoji = none) :
    ∃ m2, mapGet ((s.addReaction mid emoji uid).2.addReaction mid emoji uid).2.messages mid
        = some m2 ∧ mapGet m2.reactions emoji = none := by
  have h1 := addReaction_step s mid emoji uid m hm
  have ht1 : toggleReaction m.reactions emoji uid = mapSet m.reactions emoji [uid] := by
    simp [toggleReaction, he]
  rw [ht1] at h1
  have h2 := addReaction_step (s.addReaction mid emoji uid).2 mid emoji uid _ h1
  have ht2 : toggleReaction (mapSet m.reactions emoji [uid]) emoji uid =
      mapDelete (mapSet m.reactions emoji [uid]) emoji := by
    simp [toggleReaction, mapGet_mapSet_self]
  rw [ht2] at h2
  exact ⟨_, h2, mapGet_mapDelete_self _ _⟩

/-- C8 witness: the round trip at the concrete fresh message, emoji "+1",
user 3. -/
theorem claim8_reaction_roundtrip_witness :
    ∃ m2, mapGet ((sExMsg.addReaction 0 "+1" 3).2.addReaction 0 "+1" 3).2.messages 0
        = some m2 ∧ mapGet m2.reactions "+1" = none :=
  claim8_reaction_roundtrip sExMsg 0 3 "+1" msgEx (by decide) (by decide)
/-! ## Claims about message-creation notifications (C1) -/

/-- A key at or above every notification key is absent from the map. -/
theorem mapGet_none_of_keys_lt {α : Type} {m : List (Nat × α)} {n : Nat}
    (h : ∀ p ∈ m, p.1 < n) : mapGet m n = none := by
  induction m with
  | nil => rfl
  | cons p rest ih =>
      have hp := h p (List.mem_cons_self _ _)
      rw [mapGet_cons, if_neg (by omega)]
      exact ih (fun q hq => h q (List.mem_cons_of_mem _ hq))

/-- `createNotification` on a fresh-uuid store appends one notification and
keeps the supply fresh. -/
theorem notifCountP_createNotification (s : MemStorage) (ins : InsertNotification)
    (now : Nat) (q : Notification → Bool) (hf : uuidFresh s) :
    notifCountP (s.createNotification ins now).2 q =
      notifCountP s q + (if q (s.createNotification ins now).1 then 1 else 0) ∧
    uuidFresh (s.createNotification ins now).2 := by
  constructor
  · unfold notifCountP MemStorage.createNotification
    dsimp only
    rw [mapSet_eq_append _ _ _ (mapGet_none_of_keys_lt hf)]
    simp [List.countP_append, List.countP_cons]
  · intro p hp
    unfold MemStorage.createNotification at hp ⊢
    dsimp only at hp ⊢
    rw [mapSet_eq_append _ _ _ (mapGet_none_of_keys_lt hf)] at hp
    simp only [List.mem_append, List.mem_singleton] at hp
    rcases hp with hp | rfl
    · exact Nat.lt_succ_of_lt (hf p hp)
    · exact Nat.lt_succ_self _

/-- The per-member notification fold of the message route adds exactly one
`message`-kind notification for each non-caller member. -/
theorem notifCountP_notifyFold (members : List Uuid) (callerId Y : Uuid) (now : Nat)
    (f : Uuid → InsertNotification)
    (hUser : ∀ x, (f x).userId = x) (hKind : ∀ x, (f x).kind = NotificationKind.message) :
    ∀ s : MemStorage, uuidFresh s → members.Nodup →
    notifCountP (members.foldl (fun acc memberId =>
        if memberId = callerId then acc else (acc.createNotification (f memberId) now).2) s)
        (fun n => decide (n.userId = Y ∧ n.kind = NotificationKind.message)) =
      notifCountP s (fun n => decide (n.userId = Y ∧ n.kind = NotificationKind.message)) +
        (if Y ∈ members ∧ Y ≠ callerId then 1 else 0) ∧
    uuidFresh (members.foldl (fun acc memberId =>
        if memberId = callerId then acc else (acc.createNotification (f memberId) now).2) s) := by
  induction members with
  | nil =>
      intro s hf _
      exact ⟨by simp, hf⟩
  | cons mid rest ih =>
      intro s hf hnd
      rw [List.foldl_cons]
      by_cases hc : mid = callerId
      · rw [if_pos hc]
        obtain ⟨hcount, hfresh⟩ := ih s hf hnd.of_cons
        refine ⟨?_, hfresh⟩
        rw [hcount]
        congr 1
        by_cases hY : Y = mid
        · subst hY
          subst hc
          simp
        · have : (Y ∈ mid :: rest) ↔ (Y ∈ rest) := by simp [hY]
          simp only [this]
      · rw [if_neg hc]
        obtain ⟨hcnt1, hfresh1⟩ := notifCountP_createNotification s (f mid) now
          (fun n => decide (n.userId = Y ∧ n.kind = NotificationKind.message)) hf
        obtain ⟨hcount, hfresh⟩ := ih _ hfresh1 hnd.of_cons
        refine ⟨?_, hfresh⟩
        rw [hcount, hcnt1]
        have hq : (decide ((s.createNotification (f mid) now).1.userId = Y ∧
            (s.createNotification (f mid) now).1.kind = NotificationKind.message))
            = (decide (mid = Y)) := by
          simp [MemStorage.createNotification, hUser, hKind]
        rw [hq]
        by_cases hY : Y = mid
        · subst hY
          have hnotin : Y ∉ rest := by
            simpa using (List.nodup_cons.mp hnd).1
          simp [hnotin, hc]
        · simp only [decide_eq_true_eq]
          have h1 : ¬ (mid = Y) := fun hh => hY hh.symm
          have h2 : (Y ∈ mid :: rest) ↔ (Y ∈ rest) := by simp [hY]
          simp only [h1, if_false, h2]
          omega
/-- `createMessage` never touches the notifications map and bumps the uuid
supply by one (for the message id). -/
theorem createMessage_notifications (s : MemStorage) (ins : InsertMessage) (uid : Uuid)
    (an : String) (av : Option String) (now : Nat) :
    (s.createMessage ins uid an av now).2.notifications = s.notifications ∧
    (s.createMessage ins uid an av now).2.nextUuid = s.nextUuid + 1 := by
  unfold MemStorage.createMessage
  dsimp only
  cases h : mapGet s.groups ins.groupId with
  | none => simp [h]
  | some g => simp [h]

/-- C1 counterexample: in the two-member group 20 (members 1 and 2), user 1
creating a message leaves exactly one `message`-kind Notification for the
other member 2 in the store (there were none before) — refuting the claim
that message creation creates no notification for other members. -/
theorem claim1_counterexample :
    notifCountP (createMessageRoute sEx1 callerEx 20 bodyEx 5).2
        (fun n => decide (n.userId = 2 ∧ n.kind = NotificationKind.message)) = 1 ∧
    notifCountP sEx1
        (fun n => decide (n.userId = 2 ∧ n.kind = NotificationKind.message)) = 0 := by
  decide

/-- C1 amended: when a member X successfully creates a message in a group
(status 201), the handler creates exactly one `message`-kind Notification
for every other member Y of the group. -/
theorem claim1_amended (s : MemStorage) (g : Group) (caller : ReqUser) (gid Y : Uuid)
    (body : InsertMessage) (now : Nat)
    (hg : mapGet s.groups gid = some g) (hcaller : caller.id ∈ g.members)
    (hY : Y ∈ g.members) (hYne : Y ≠ caller.id) (hnd : g.members.Nodup)
    (hf : uuidFresh s) :
    (createMessageRoute s caller gid body now).1 = 201 ∧
    notifCountP (createMessageRoute s caller gid body now).2
        (fun n => decide (n.userId = Y ∧ n.kind = NotificationKind.message)) =
      notifCountP s (fun n => decide (n.userId = Y ∧ n.kind = NotificationKind.message)) + 1 := by
  unfold createMessageRoute
  rw [hg]
  dsimp only
  rw [if_pos hcaller]
  obtain ⟨hpres, hnext⟩ := createMessage_notifications s { body with groupId := gid }
    caller.id caller.fullName caller.avatar now
  have hf2 : uuidFresh (s.createMessage { body with groupId := gid }
      caller.id caller.fullName caller.avatar now).2 := by
    intro p hp
    rw [hpres] at hp
    rw [hnext]
    exact Nat.lt_succ_of_lt (hf p hp)
  obtain ⟨hcount, _⟩ := notifCountP_notifyFold g.members caller.id Y now
    (fun memberId =>
      { userId := memberId
        title := "New message in " ++ g.name
        message := messageNotificationText caller.fullName
          (s.createMessage { body with groupId := gid }
            caller.id caller.fullName caller.avatar now).1.content
        kind := .message
        link := some ("/groups/" ++ toString gid)
        eventId := none, reminderType := none })
    (fun _ => rfl) (fun _ => rfl)
    (s.createMessage { body with groupId := gid } caller.id caller.fullName caller.avatar now).2
    hf2 hnd
  refine ⟨rfl, ?_⟩
  rw [hcount]
  unfold notifCountP
  rw [hpres]
  simp [hY, hYne]
/-! ## Claims about group roles (C4) -/

/-- Deleting a key that is not present leaves the map unchanged. -/
theorem mapDelete_eq_self {κ α : Type} [DecidableEq κ] {m : List (κ × α)} {k : κ}
    (h : ∀ p ∈ m, p.1 ≠ k) : mapDelete m k = m := by
  induction m with
  | nil => rfl
  | cons q rest ih =>
      rw [mapDelete, if_neg (h q (List.mem_cons_self _ _))]
      rw [ih (fun p hp => h p (List.mem_cons_of_mem _ hp))]

/-- Removing a member whose role is not `creator` keeps the number of
`creator` entries. -/
theorem countP_creator_mapDelete (roles : List (Uuid × GroupRole)) (u : Uuid)
    (hnd : (roles.map (·.1)).Nodup) (h : mapGet roles u ≠ some GroupRole.creator) :
    (mapDelete roles u).countP (fun p => decide (p.2 = GroupRole.creator)) =
      roles.countP (fun p => decide (p.2 = GroupRole.creator)) := by
  induction roles with
  | nil => rfl
  | cons q rest ih =>
      simp only [List.map_cons, List.nodup_cons, List.mem_map] at hnd
      by_cases hq : q.1 = u
      · rw [mapDelete, if_pos hq]
        have hmap : mapGet (q :: rest) u = some q.2 := by rw [mapGet_cons, if_pos hq]
        rw [hmap] at h
        have hrole : ¬ q.2 = GroupRole.creator := fun hh => h (by rw [hh])
        have hrest : mapDelete rest u = rest :=
          mapDelete_eq_self (fun p hp hpk => hnd.1 ⟨p, hp, hpk.trans hq.symm⟩)
        rw [hrest, List.countP_cons]
        simp [hrole]
      · have hrec : mapGet rest u ≠ some GroupRole.creator := by
          rw [mapGet_cons, if_neg hq] at h
          exact h
        rw [mapDelete, if_neg hq, List.countP_cons, List.countP_cons, ih hnd.2 hrec]

/-- C4 counterexample: user 3 creates a group (becoming its sole member with
role `creator`) and then leaves it; `leaveGroup` deletes the creator's
role entry, so the group is left with zero `creator` entries — refuting the
claim that the creator entry is never removed by leave. -/
theorem claim4_counterexample :
    ((emptyStore.createGroup "Chess" "d" "c" none none none 3 0).2.leaveGroup 0 3).1.map
      (fun g => g.memberRoles.countP (fun p => decide (p.2 = GroupRole.creator))) = some 0 := by
  decide

/-- C4 amended: `createGroup` establishes exactly one `creator` role entry,
and `leaveGroup` removes the leaving member's role entry unconditionally:
a leave by a member whose role is not `creator` preserves the number of
`creator` entries, while a leave by the creator removes the creator's
entry (so the group can be left with none). -/
theorem claim4_amended :
    (∀ (s : MemStorage) (name d c : String) (dept icon rl : Option String)
        (uid : Uuid) (now : Nat),
       ((s.createGroup name d c dept icon rl uid now).1.memberRoles.countP
         (fun p => decide (p.2 = GroupRole.creator))) = 1) ∧
    (∀ (s : MemStorage) (gid u : Uuid) (g g' : Group),
       mapGet s.groups gid = some g →
       (g.memberRoles.map (·.1)).Nodup →
       (s.leaveGroup gid u).1 = some g' →
       ((mapGet g.memberRoles u ≠ some GroupRole.creator →
           g'.memberRoles.countP (fun p => decide (p.2 = GroupRole.creator)) =
           g.memberRoles.countP (fun p => decide (p.2 = GroupRole.creator))) ∧
        (mapGet g.memberRoles u = some GroupRole.creator →
           mapGet g'.memberRoles u = none))) := by
  constructor
  · intro s name d c dept icon rl uid now
    unfold MemStorage.createGroup
    dsimp only
    cases h : mapGet ({ s with
        groups := mapSet s.groups s.nextUuid
          { id := s.nextUuid, name, description := d, category := c, department := dept
            memberCount := 1, members := [uid], memberRoles := [(uid, GroupRole.creator)]
            createdBy := some uid, createdAt := now, icon
            postsCount := 0, messagesCount := 0, rules := rl
            pinnedMessages := [], lastActivityAt := some now }
        nextUuid := s.nextUuid + 1 } : MemStorage).users uid with
    | none => simp [h, List.countP_cons]
    | some user => simp [h, List.countP_cons]
  · intro s gid u g g' hg hnd hres
    unfold MemStorage.leaveGroup at hres
    rw [hg] at hres
    dsimp only at hres
    cases hu : mapGet s.users u with
    | none =>
        rw [hu] at hres
        dsimp only at hres
        injection hres with hres
        subst hres
        exact ⟨fun hrole => countP_creator_mapDelete g.memberRoles u hnd hrole,
               fun _ => mapGet_mapDelete_self g.memberRoles u⟩
    | some user =>
        rw [hu] at hres
        dsimp only at hres
        injection hres with hres
        subst hres
        exact ⟨fun hrole => countP_creator_mapDelete g.memberRoles u hnd hrole,
               fun _ => mapGet_mapDelete_self g.memberRoles u⟩

/-- C4 amended witness: member 2 (role `member`) leaving group 20 keeps its
single `creator` entry. -/
theorem claim4_amended_witness :
    leaveExGroup.memberRoles.countP (fun p => decide (p.2 = GroupRole.creator)) =
      groupEx.memberRoles.countP (fun p => decide (p.2 = GroupRole.creator)) :=
  (claim4_amended.2 sEx1 20 2 groupEx leaveExGroup (by decide) (by decide) (by decide)).1
    (by decide)

/-- C1 amended witness: the concrete two-member scenario — user 1 creating a
message in group 20 yields status 201 and one new `message` notification
for member 2. -/
theorem claim1_amended_witness :
    (createMessageRoute sEx1 callerEx 20 bodyEx 5).1 = 201 ∧
    notifCountP (createMessageRoute sEx1 callerEx 20 bodyEx 5).2
        (fun n => decide (n.userId = 2 ∧ n.kind = NotificationKind.message)) =
      notifCountP sEx1
        (fun n => decide (n.userId = 2 ∧ n.kind = NotificationKind.message)) + 1 :=
  claim1_amended sEx1 groupEx callerEx 20 2 bodyEx 5 (by decide) (by decide) (by decide)
    (by decide) (by decide) (by decide)
/-! ## Claims about event registration (C10) -/

/-- A successful lookup is a membership. -/
theorem mapGet_mem {κ α : Type} [DecidableEq κ] {m : List (κ × α)} {k : κ} {v : α}
    (h : mapGet m k = some v) : (k, v) ∈ m := by
  induction m with
  | nil => cases h
  | cons p rest ih =>
      rw [mapGet_cons] at h
      by_cases hp : p.1 = k
      · rw [if_pos hp] at h
        injection h with h
        have hv : p = (k, v) := by
          cases p
          simp only [Prod.mk.injEq]
          exact ⟨hp, h⟩
        rw [← hv]
        exact List.mem_cons_self _ _
      · rw [if_neg hp] at h
        exact List.mem_cons_of_mem _ (ih h)

/-- `registerForEvent` preserves the participants invariant. -/
theorem registerForEvent_consistent (s : MemStorage) (eid uid : Uuid)
    (h : participantsConsistent s) :
    participantsConsistent (s.registerForEvent eid uid).2 := by
  obtain ⟨hcp, hndregs, hkev, hkregs⟩ := h
  cases he : mapGet s.events eid with
  | none =>
      have hres : (s.registerForEvent eid uid).2 = s := by
        simp [MemStorage.registerForEvent, he]
      rw [hres]
      exact ⟨hcp, hndregs, hkev, hkregs⟩
  | some e =>
      by_cases hcan : e.cancelled = true
      · have hres : (s.registerForEvent eid uid).2 = s := by
          simp [MemStorage.registerForEvent, he, hcan]
        rw [hres]
        exact ⟨hcp, hndregs, hkev, hkregs⟩
      · by_cases hcap : (match e.maxParticipants with
            | some mp => !decide (mp = 0) && decide (mp ≤ e.currentParticipants)
            | none => false) = true
        · have hres : (s.registerForEvent eid uid).2 = s := by
            simp [MemStorage.registerForEvent, he, hcan, hcap]
          rw [hres]
          exact ⟨hcp, hndregs, hkev, hkregs⟩
        · cases hr : mapGet s.eventRegistrations eid with
          | some regs =>
              by_cases hin : uid ∈ regs
              · have hres : (s.registerForEvent eid uid).2 = s := by
                  simp [MemStorage.registerForEvent, he, hcan, hcap, hr, hin]
                rw [hres]
                exact ⟨hcp, hndregs, hkev, hkregs⟩
              · have hres : (s.registerForEvent eid uid).2 = { s with
                    eventRegistrations := mapSet s.eventRegistrations eid (regs ++ [uid])
                    events := mapSet s.events eid
                      { e with currentParticipants := (regs ++ [uid]).length } } := by
                  simp [MemStorage.registerForEvent, he, hcan, hcap, hr, hin]
                rw [hres]
                have hndr : regs.Nodup := hndregs _ (mapGet_mem hr)
                refine ⟨?_, ?_, mapSet_keys_nodup hkev, mapSet_keys_nodup hkregs⟩
                · intro p hp
                  rcases (mem_mapSet hkev p).mp hp with rfl | ⟨hpmem, hpne⟩
                  · simp only [registrationsOf, mapGet_mapSet_self, Option.getD_some]
                  · have := hcp p hpmem
                    simpa only [registrationsOf, mapGet_mapSet_ne _ _ _ _ hpne] using this
                · intro q hq
                  rcases (mem_mapSet hkregs q).mp hq with rfl | ⟨hqmem, _⟩
                  · simp only [List.nodup_append, List.nodup_cons, List.not_mem_nil,
                      not_false_eq_true, List.nodup_nil, and_true, true_and]
                    refine ⟨hndr, ?_⟩
                    intro x hx hx'
                    simp only [List.mem_singleton] at hx'
                    subst hx'
                    exact hin hx
                  · exact hndregs q hqmem
          | none =>
              have hres : (s.registerForEvent eid uid).2 = { s with
                  eventRegistrations := mapSet (mapSet s.eventRegistrations eid []) eid [uid]
                  events := mapSet s.events eid
                    { e with currentParticipants := 1 } } := by
                simp [MemStorage.registerForEvent, he, hcan, hcap, hr, mapGet_mapSet_self]
              rw [hres]
              have hkregs1 : ((mapSet s.eventRegistrations eid
                  ([] : List Uuid)).map (·.1)).Nodup := mapSet_keys_nodup hkregs
              refine ⟨?_, ?_, mapSet_keys_nodup hkev, mapSet_keys_nodup hkregs1⟩
              · intro p hp
                rcases (mem_mapSet hkev p).mp hp with rfl | ⟨hpmem, hpne⟩
                · simp only [registrationsOf, mapGet_mapSet_self, Option.getD_some,
                    List.length_singleton]
                · have := hcp p hpmem
                  simp only [registrationsOf, mapGet_mapSet_ne _ _ _ _ hpne] at this ⊢
                  exact this
              · intro q hq
                rcases (mem_mapSet hkregs1 q).mp hq with rfl | ⟨hqmem, _⟩
                · simp
                · rcases (mem_mapSet hkregs q).mp hqmem with rfl | ⟨hqmem2, _⟩
                  · simp
                  · exact hndregs q hqmem2

/-- `unregisterFromEvent` preserves the participants invariant. -/
theorem unregisterFromEvent_consistent (s : MemStorage) (eid uid : Uuid)
    (h : participantsConsistent s) :
    participantsConsistent (s.unregisterFromEvent eid uid).2 := by
  obtain ⟨hcp, hndregs, hkev, hkregs⟩ := h
  cases he : mapGet s.events eid with
  | none =>
      have hres : (s.unregisterFromEvent eid uid).2 = s := by
        simp [MemStorage.unregisterFromEvent, he]
      rw [hres]
      exact ⟨hcp, hndregs, hkev, hkregs⟩
  | some e =>
      cases hr : mapGet s.eventRegistrations eid with
      | none =>
          have hres : (s.unregisterFromEvent eid uid).2 = s := by
            simp [MemStorage.unregisterFromEvent, he, hr]
          rw [hres]
          exact ⟨hcp, hndregs, hkev, hkregs⟩
      | some regs =>
          by_cases hin : uid ∈ regs
          · have hres : (s.unregisterFromEvent eid uid).2 = { s with
                eventRegistrations := mapSet s.eventRegistrations eid (regs.erase uid)
                events := mapSet s.events eid
                  { e with currentParticipants := (regs.erase uid).length } } := by
              simp [MemStorage.unregisterFromEvent, he, hr, hin]
            rw [hres]
            have hndr : regs.Nodup := hndregs _ (mapGet_mem hr)
            refine ⟨?_, ?_, mapSet_keys_nodup hkev, mapSet_keys_nodup hkregs⟩
            · intro p hp
              rcases (mem_mapSet hkev p).mp hp with rfl | ⟨hpmem, hpne⟩
              · simp only [registrationsOf, mapGet_mapSet_self, Option.getD_some]
              · have := hcp p hpmem
                simpa only [registrationsOf, mapGet_mapSet_ne _ _ _ _ hpne] using this
            · intro q hq
              rcases (mem_mapSet hkregs q).mp hq with rfl | ⟨hqmem, _⟩
              · exact hndr.erase uid
              · exact hndregs q hqmem
          · have hres : (s.unregisterFromEvent eid uid).2 = s := by
              simp [MemStorage.unregisterFromEvent, he, hr, hin]
            rw [hres]
            exact ⟨hcp, hndregs, hkev, hkregs⟩

/-- Registration/unregistration sequences preserve the participants
invariant. -/
theorem applyEvOps_consistent (ops : List EvOp) :
    ∀ s : MemStorage, participantsConsistent s →
      participantsConsistent (applyEvOps s ops) := by
  induction ops with
  | nil => intro s h; exact h
  | cons op rest ih =>
      intro s h
      rw [applyEvOps, List.foldl_cons]
      cases op with
      | reg e u => exact ih _ (registerForEvent_consistent s e u h)
      | unreg e u => exact ih _ (unregisterFromEvent_consistent s e u h)
/-- C10 counterexample: an event with `maxParticipants = 0` and
`currentParticipants = 0` (at/above the limit) still accepts a
registration — the JS truthiness capacity guard is disabled by the value 0,
refuting the claim that registration then yields an absent result with no
state change. -/
theorem claim10_counterexample :
    (sExZero.registerForEvent 40 5).1 = some { eventZeroCap with currentParticipants := 1 } ∧
    registrationsOf (sExZero.registerForEvent 40 5).2 40 = [5] := by
  decide

/-- C10 amended: `registerForEvent` returns an absent result with the store
unchanged when the event is missing, cancelled, or has a NONZERO
`maxParticipants` already reached (a zero limit is falsy in JS and disables
the guard); registering an already-registered user returns the event with
the store unchanged; and `currentParticipants` equals the registration-set
size after any register/unregister sequence from a consistent store. -/
theorem claim10_register_guards (s : MemStorage) (eid uid : Uuid) :
    (mapGet s.events eid = none → s.registerForEvent eid uid = (none, s)) ∧
    (∀ e, mapGet s.events eid = some e → e.cancelled = true →
       s.registerForEvent eid uid = (none, s)) ∧
    (∀ e mp, mapGet s.events eid = some e → e.maxParticipants = some mp → mp ≠ 0 →
       mp ≤ e.currentParticipants → s.registerForEvent eid uid = (none, s)) ∧
    (∀ e regs, mapGet s.events eid = some e → e.cancelled = false →
       (e.maxParticipants = none ∨
        ∃ mp, e.maxParticipants = some mp ∧ (mp = 0 ∨ e.currentParticipants < mp)) →
       mapGet s.eventRegistrations eid = some regs → uid ∈ regs →
       s.registerForEvent eid uid = (some e, s)) ∧
    (∀ ops, participantsConsistent s → participantsConsistent (applyEvOps s ops)) := by
  refine ⟨?_, ?_, ?_, ?_, ?_⟩
  · intro he
    simp [MemStorage.registerForEvent, he]
  · intro e he hcan
    simp [MemStorage.registerForEvent, he, hcan]
  · intro e mp he hmp h0 hcapty
    by_cases hcan : e.cancelled = true
    · simp [MemStorage.registerForEvent, he, hcan]
    · simp [MemStorage.registerForEvent, he, hcan, hmp, h0, hcapty]
  · rintro e regs he hcan hcap hr hin
    have hcapF : (match e.maxParticipants with
        | some mp => !decide (mp = 0) && decide (mp ≤ e.currentParticipants)
        | none => false) = false := by
      rcases hcap with h | ⟨mp, hmp, h0⟩
      · simp [h]
      · rcases h0 with h0 | hlt
        · simp [hmp, h0]
        · simp [hmp, Nat.not_le.mpr hlt]
    simp [MemStorage.registerForEvent, he, hcan, hcapF, hr, hin]
  · intro ops h
    exact applyEvOps_consistent ops s h

/-- C10 witness: the capacity guard at a concrete full event, and the
participants invariant along a concrete register/unregister sequence on the
zero-capacity store. -/
theorem claim10_register_guards_witness :
    sExFull.registerForEvent 41 5 = (none, sExFull) ∧
    participantsConsistent (applyEvOps sExZero
      [EvOp.reg 40 5, EvOp.reg 40 5, EvOp.unreg 40 5]) :=
  ⟨(claim10_register_guards sExFull 41 5).2.2.1 eventFull 2 (by decide) (by decide)
      (by decide) (by decide),
   (claim10_register_guards sExZero 40 5).2.2.2.2
      [EvOp.reg 40 5, EvOp.reg 40 5, EvOp.unreg 40 5] (by decide)⟩
/-! ## Claims about the pin invariant (C5) -/

/-- Appending a fresh element keeps a list duplicate-free. -/
theorem nodup_append_singleton {l : List Uuid} {x : Uuid} (hnd : l.Nodup) (hx : x ∉ l) :
    (l ++ [x]).Nodup := by
  simp only [List.nodup_append, List.nodup_cons, List.not_mem_nil, not_false_eq_true,
    List.nodup_nil, and_true, true_and]
  refine ⟨hnd, ?_⟩
  intro a ha ha'
  simp only [List.mem_singleton] at ha'
  subst ha'
  exact hx ha

/-- `pinMessage` preserves the pin invariant. -/
theorem pinMessage_consistent (s : MemStorage) (mid : Uuid) (h : pinConsistent s) :
    pinConsistent (s.pinMessage mid).2 := by
  obtain ⟨hok, hnd, hkm, hkg⟩ := h
  cases hm : mapGet s.messages mid with
  | none =>
      have hres : (s.pinMessage mid).2 = s := by simp [MemStorage.pinMessage, hm]
      rw [hres]
      exact ⟨hok, hnd, hkm, hkg⟩
  | some m =>
      cases hg : mapGet s.groups m.groupId with
      | none =>
          have hres : (s.pinMessage mid).2 =
              { s with messages := mapSet s.messages mid { m with isPinned := true } } := by
            simp [MemStorage.pinMessage, hm, hg]
          rw [hres]
          refine ⟨?_, hnd, mapSet_keys_nodup hkm, hkg⟩
          intro p hp g0 hg0
          rcases (mem_mapSet hkm p).mp hp with rfl | ⟨hpmem, hpne⟩
          · dsimp only at hg0
            rw [hg] at hg0
            cases hg0
          · exact hok p hpmem g0 hg0
      | some g =>
          by_cases hin : mid ∈ g.pinnedMessages
          · have hres : (s.pinMessage mid).2 =
                { s with messages := mapSet s.messages mid { m with isPinned := true } } := by
              simp [MemStorage.pinMessage, hm, hg, hin]
            rw [hres]
            refine ⟨?_, hnd, mapSet_keys_nodup hkm, hkg⟩
            intro p hp g0 hg0
            rcases (mem_mapSet hkm p).mp hp with rfl | ⟨hpmem, hpne⟩
            · dsimp only at hg0 ⊢
              rw [hg] at hg0
              injection hg0 with hg0
              subst hg0
              exact ⟨fun _ => hin, fun _ => rfl⟩
            · exact hok p hpmem g0 hg0
          · have hres : (s.pinMessage mid).2 =
                { s with
                  messages := mapSet s.messages mid { m with isPinned := true }
                  groups := mapSet s.groups m.groupId
                    { g with pinnedMessages := g.pinnedMessages ++ [mid] } } := by
              simp [MemStorage.pinMessage, hm, hg, hin]
            rw [hres]
            refine ⟨?_, ?_, mapSet_keys_nodup hkm, mapSet_keys_nodup hkg⟩
            · intro p hp g0 hg0
              rcases (mem_mapSet hkm p).mp hp with rfl | ⟨hpmem, hpne⟩
              · dsimp only at hg0 ⊢
                rw [mapGet_mapSet_self] at hg0
                injection hg0 with hg0
                subst hg0
                simp
              · dsimp only at hg0
                by_cases hgrp : p.2.groupId = m.groupId
                · rw [hgrp, mapGet_mapSet_self] at hg0
                  injection hg0 with hg0
                  subst hg0
                  have hold := hok p hpmem g (by rw [hgrp]; exact hg)
                  dsimp only
                  rw [hold]
                  simp [hpne]
                · rw [mapGet_mapSet_ne _ _ _ _ hgrp] at hg0
                  exact hok p hpmem g0 hg0
            · intro q hq
              rcases (mem_mapSet hkg q).mp hq with rfl | ⟨hqmem, _⟩
              · exact nodup_append_singleton (hnd _ (mapGet_mem hg)) hin
              · exact hnd q hqmem

/-- `unpinMessage` preserves the pin invariant. -/
theorem unpinMessage_consistent (s : MemStorage) (mid : Uuid) (h : pinConsistent s) :
    pinConsistent (s.unpinMessage mid).2 := by
  obtain ⟨hok, hnd, hkm, hkg⟩ := h
  cases hm : mapGet s.messages mid with
  | none =>
      have hres : (s.unpinMessage mid).2 = s := by simp [MemStorage.unpinMessage, hm]
      rw [hres]
      exact ⟨hok, hnd, hkm, hkg⟩
  | some m =>
      cases hg : mapGet s.groups m.groupId with
      | none =>
          have hres : (s.unpinMessage mid).2 =
              { s with messages := mapSet s.messages mid { m with isPinned := false } } := by
            simp [MemStorage.unpinMessage, hm, hg]
          rw [hres]
          refine ⟨?_, hnd, mapSet_keys_nodup hkm, hkg⟩
          intro p hp g0 hg0
          rcases (mem_mapSet hkm p).mp hp with rfl | ⟨hpmem, hpne⟩
          · dsimp only at hg0
            rw [hg] at hg0
            cases hg0
          · exact hok p hpmem g0 hg0
      | some g =>
          have hres : (s.unpinMessage mid).2 =
              { s with
                messages := mapSet s.messages mid { m with isPinned := false }
                groups := mapSet s.groups m.groupId
                  { g with pinnedMessages := g.pinnedMessages.filter (fun i => i ≠ mid) } } := by
            simp [MemStorage.unpinMessage, hm, hg]
          rw [hres]
          refine ⟨?_, ?_, mapSet_keys_nodup hkm, mapSet_keys_nodup hkg⟩
          · intro p hp g0 hg0
            rcases (mem_mapSet hkm p).mp hp with rfl | ⟨hpmem, hpne⟩
            · dsimp only at hg0 ⊢
              rw [mapGet_mapSet_self] at hg0
              injection hg0 with hg0
              subst hg0
              constructor
              · intro hcon
                cases hcon
              · intro hmem
                have := (List.mem_filter.mp hmem).2
                simp at this
            · dsimp only at hg0
              by_cases hgrp : p.2.groupId = m.groupId
              · rw [hgrp, mapGet_mapSet_self] at hg0
                injection hg0 with hg0
                subst hg0
                have hold := hok p hpmem g (by rw [hgrp]; exact hg)
                dsimp only
                rw [hold]
                constructor
                · intro hmem
                  exact List.mem_filter.mpr ⟨hmem, by simpa using hpne⟩
                · intro hmem
                  exact (List.mem_filter.mp hmem).1
              · rw [mapGet_mapSet_ne _ _ _ _ hgrp] at hg0
                exact hok p hpmem g0 hg0
          · intro q hq
            rcases (mem_mapSet hkg q).mp hq with rfl | ⟨hqmem, _⟩
            · exact (hnd _ (mapGet_mem hg)).filter _
            · exact hnd q hqmem

/-- `deleteMessage` preserves the pin invariant. -/
theorem deleteMessage_consistent (s : MemStorage) (mid : Uuid) (h : pinConsistent s) :
    pinConsistent (s.deleteMessage mid).2 := by
  obtain ⟨hok, hnd, hkm, hkg⟩ := h
  cases hm : mapGet s.messages mid with
  | none =>
      have hres : (s.deleteMessage mid).2 = s := by simp [MemStorage.deleteMessage, hm]
      rw [hres]
      exact ⟨hok, hnd, hkm, hkg⟩
  | some m =>
      cases hg : mapGet s.groups m.groupId with
      | none =>
          have hres : (s.deleteMessage mid).2 =
              { s with messages := mapDelete s.messages mid } := by
            simp [MemStorage.deleteMessage, hm, hg]
          rw [hres]
          refine ⟨?_, hnd, mapDelete_keys_nodup hkm, hkg⟩
          intro p hp g0 hg0
          exact hok p ((mem_mapDelete p).mp hp).1 g0 hg0
      | some g =>
          have hres : (s.deleteMessage mid).2 =
              { s with
                messages := mapDelete s.messages mid
                groups := mapSet s.groups m.groupId
                  { g with
                    messagesCount := g.messagesCount - 1
                    pinnedMessages := g.pinnedMessages.filter (fun i => i ≠ mid) } } := by
            simp [MemStorage.deleteMessage, hm, hg]
          rw [hres]
          refine ⟨?_, ?_, mapDelete_keys_nodup hkm, mapSet_keys_nodup hkg⟩
          · intro p hp g0 hg0
            obtain ⟨hpmem, hpne⟩ := (mem_mapDelete p).mp hp
            dsimp only at hg0
            by_cases hgrp : p.2.groupId = m.groupId
            · rw [hgrp, mapGet_mapSet_self] at hg0
              injection hg0 with hg0
              subst hg0
              have hold := hok p hpmem g (by rw [hgrp]; exact hg)
              dsimp only
              rw [hold]
              constructor
              · intro hmem
                exact List.mem_filter.mpr ⟨hmem, by simpa using hpne⟩
              · intro hmem
                exact (List.mem_filter.mp hmem).1
            · rw [mapGet_mapSet_ne _ _ _ _ hgrp] at hg0
              exact hok p hpmem g0 hg0
          · intro q hq
            rcases (mem_mapSet hkg q).mp hq with rfl | ⟨hqmem, _⟩
            · exact (hnd _ (mapGet_mem hg)).filter _
            · exact hnd q hqmem

/-- Sequences of pin/unpin/delete preserve the pin invariant. -/
theorem applyMsgOps_consistent (ops : List MsgOp) :
    ∀ s : MemStorage, pinConsistent s → pinConsistent (applyMsgOps s ops) := by
  induction ops with
  | nil => intro s h; exact h
  | cons op rest ih =>
      intro s h
      rw [applyMsgOps, List.foldl_cons]
      cases op with
      | pin i => exact ih _ (pinMessage_consistent s i h)
      | unpin i => exact ih _ (unpinMessage_consistent s i h)
      | del i => exact ih _ (deleteMessage_consistent s i h)
/-- What `pinMessage` stores for the message and its owning group. -/
theorem pinMessage_lookup (s : MemStorage) (mid : Uuid) (m : Message) (g : Group)
    (hm : mapGet s.messages mid = some m) (hg : mapGet s.groups m.groupId = some g) :
    mapGet (s.pinMessage mid).2.messages mid = some { m with isPinned := true } ∧
    mapGet (s.pinMessage mid).2.groups m.groupId =
      some (if mid ∈ g.pinnedMessages then g
            else { g with pinnedMessages := g.pinnedMessages ++ [mid] }) := by
  by_cases hin : mid ∈ g.pinnedMessages
  · have hres : (s.pinMessage mid).2 =
        { s with messages := mapSet s.messages mid { m with isPinned := true } } := by
      simp [MemStorage.pinMessage, hm, hg, hin]
    rw [hres, if_pos hin]
    exact ⟨mapGet_mapSet_self _ _ _, hg⟩
  · have hres : (s.pinMessage mid).2 =
        { s with
          messages := mapSet s.messages mid { m with isPinned := true }
          groups := mapSet s.groups m.groupId
            { g with pinnedMessages := g.pinnedMessages ++ [mid] } } := by
      simp [MemStorage.pinMessage, hm, hg, hin]
    rw [hres, if_neg hin]
    exact ⟨mapGet_mapSet_self _ _ _, mapGet_mapSet_self _ _ _⟩

/-- What `deleteMessage` stores for the owning group. -/
theorem deleteMessage_lookup (s : MemStorage) (mid : Uuid) (m : Message) (g : Group)
    (hm : mapGet s.messages mid = some m) (hg : mapGet s.groups m.groupId = some g) :
    mapGet (s.deleteMessage mid).2.groups m.groupId =
      some { g with
             messagesCount := g.messagesCount - 1
             pinnedMessages := g.pinnedMessages.filter (fun i => i ≠ mid) } := by
  have hres : (s.deleteMessage mid).2 =
      { s with
        messages := mapDelete s.messages mid
        groups := mapSet s.groups m.groupId
          { g with
            messagesCount := g.messagesCount - 1
            pinnedMessages := g.pinnedMessages.filter (fun i => i ≠ mid) } } := by
    simp [MemStorage.deleteMessage, hm, hg]
  rw [hres]
  exact mapGet_mapSet_self _ _ _

/-- C5: from a consistent store, every sequence of pin/unpin/delete
operations preserves the agreement between each message's `isPinned` flag
and its id's presence in the owning group's `pinnedMessages`; pinning a
message twice leaves its id in the owner's list exactly once; and pinning
then deleting a message removes its id from the owner's list. -/
theorem claim5_pin_invariant (s : MemStorage) (h : pinConsistent s) :
    (∀ ops, pinConsistent (applyMsgOps s ops)) ∧
    (∀ mid m g, mapGet s.messages mid = some m → mapGet s.groups m.groupId = some g →
       ∃ g2, mapGet (applyMsgOps s [MsgOp.pin mid, MsgOp.pin mid]).groups m.groupId = some g2 ∧
         g2.pinnedMessages.count mid = 1) ∧
    (∀ mid m g, mapGet s.messages mid = some m → mapGet s.groups m.groupId = some g →
       ∃ g3, mapGet (applyMsgOps s [MsgOp.pin mid, MsgOp.del mid]).groups m.groupId = some g3 ∧
         mid ∉ g3.pinnedMessages) := by
  refine ⟨fun ops => applyMsgOps_consistent ops s h, ?_, ?_⟩
  · intro mid m g hm hg
    have hndg : g.pinnedMessages.Nodup := h.2.1 _ (mapGet_mem hg)
    obtain ⟨hm1, hg1⟩ := pinMessage_lookup s mid m g hm hg
    by_cases hin : mid ∈ g.pinnedMessages
    · rw [if_pos hin] at hg1
      obtain ⟨hm2, hg2⟩ := pinMessage_lookup (s.pinMessage mid).2 mid _ g hm1 hg1
      rw [if_pos hin] at hg2
      exact ⟨g, hg2, List.count_eq_one_of_mem hndg hin⟩
    · rw [if_neg hin] at hg1
      obtain ⟨hm2, hg2⟩ := pinMessage_lookup (s.pinMessage mid).2 mid _ _ hm1 hg1
      have hin2 : mid ∈ ({ g with pinnedMessages := g.pinnedMessages ++ [mid] } :
          Group).pinnedMessages := by simp
      rw [if_pos hin2] at hg2
      refine ⟨_, hg2, ?_⟩
      simp [List.count_append, List.count_eq_zero_of_not_mem hin]
  · intro mid m g hm hg
    obtain ⟨hm1, hg1'⟩ := pinMessage_lookup s mid m g hm hg
    have hdel := deleteMessage_lookup (s.pinMessage mid).2 mid _ _ hm1 hg1'
    refine ⟨_, hdel, ?_⟩
    intro hcon
    have := (List.mem_filter.mp hcon).2
    simp at this

/-- C5 witness: the concrete one-group, one-message store — pin/unpin keeps
consistency and a double pin leaves the id exactly once. -/
theorem claim5_pin_invariant_witness :
    pinConsistent (applyMsgOps sExPin [MsgOp.pin 0, MsgOp.unpin 0]) ∧
    (∃ g2, mapGet (applyMsgOps sExPin [MsgOp.pin 0, MsgOp.pin 0]).groups msgEx.groupId
        = some g2 ∧ g2.pinnedMessages.count 0 = 1) :=
  ⟨(claim5_pin_invariant sExPin (by decide)).1 [MsgOp.pin 0, MsgOp.unpin 0],
   (claim5_pin_invariant sExPin (by decide)).2.1 0 msgEx gEx5 (by decide) (by decide)⟩
/-! ## Claims about the reminder sweep (C6) -/

/-- The 24-hour window and the 1-hour window are disjoint. -/
theorem not_in1hWindow_of_in24h (d : Int) (h : in24hWindow d) : ¬ in1hWindow d := by
  unfold in24hWindow at h
  unfold in1hWindow
  omega

/-- A reminder attempt whose dedup marker already exists does nothing. -/
theorem reminderAttempt_skips (s : MemStorage) (e : Event) (t : ReminderKind) (now : Nat)
    (uid : Uuid) (hsent : (e.id, uid, t) ∈ s.sentReminders) :
    reminderAttempt e t now s uid = s := by
  simp [reminderAttempt, hsent]

/-- A reminder attempt with no marker, an existing user, and the preference
on creates the notification and records the marker. -/
theorem reminderAttempt_creates (s : MemStorage) (e : Event) (t : ReminderKind) (now : Nat)
    (uid : Uuid) (u : User)
    (hsent : (e.id, uid, t) ∉ s.sentReminders)
    (hu : mapGet s.users uid = some u) (hpref : reminderPref u t = true) :
    reminderAttempt e t now s uid = { s with
      notifications := mapSet s.notifications s.nextUuid
        { id := s.nextUuid, userId := uid, title := "Reminder: " ++ e.title
          message := reminderText e t, kind := .reminder, read := false, createdAt := now
          link := some ("/events/" ++ toString e.id), eventId := some e.id
          reminderType := some t }
      nextUuid := s.nextUuid + 1
      sentReminders := s.sentReminders ++ [(e.id, uid, t)] } := by
  simp [reminderAttempt, hsent, hu, hpref, setAdd]

/-- On a store whose events map holds exactly one event inside the 24-hour
window, one sweep pass is exactly the 24-hour reminder dispatch for it. -/
theorem sweepPass_single (s : MemStorage) (eid : Uuid) (e : Event) (now : Nat)
    (hev : s.events = [(eid, e)])
    (hw : in24hWindow ((e.date : Int) - (now : Int))) :
    s.reminderSweepPass now = s.sendReminderNotifications e ReminderKind.r24h now := by
  unfold MemStorage.reminderSweepPass
  rw [hev]
  simp only [List.map_cons, List.map_nil, List.foldl_cons, List.foldl_nil]
  rw [if_pos hw, if_neg (not_in1hWindow_of_in24h _ hw)]

/-- C6: for one non-cancelled event with one registered user whose 24-hour
preference is on, two consecutive sweep passes that both land inside the
24-hour window create exactly one reminder notification with
`reminderType = 24h` for that (event, user) pair: the dedup marker recorded
by the first pass blocks the second. -/
theorem claim6_reminder_dedup (s : MemStorage) (eid uid : Uuid) (e : Event) (u : User)
    (now1 now2 : Nat)
    (hev : s.events = [(eid, e)])
    (_hcan : e.cancelled = false)
    (hreg : mapGet s.eventRegistrations e.id = some [uid])
    (huser : mapGet s.users uid = some u)
    (hpref : u.notificationPreferences.eventReminders24h = true)
    (hsent : (e.id, uid, ReminderKind.r24h) ∉ s.sentReminders)
    (hfresh : uuidFresh s)
    (hw1 : in24hWindow ((e.date : Int) - (now1 : Int)))
    (hw2 : in24hWindow ((e.date : Int) - (now2 : Int))) :
    notifCountP ((s.reminderSweepPass now1).reminderSweepPass now2)
        (fun n => decide (n.userId = uid ∧ n.eventId = some e.id ∧
          n.reminderType = some ReminderKind.r24h)) =
      notifCountP s
        (fun n => decide (n.userId = uid ∧ n.eventId = some e.id ∧
          n.reminderType = some ReminderKind.r24h)) + 1 := by
  have key : ∀ w : MemStorage, w.events = [(eid, e)] →
      mapGet w.eventRegistrations e.id = some [uid] →
      (e.id, uid, ReminderKind.r24h) ∈ w.sentReminders →
      w.reminderSweepPass now2 = w := by
    intro w hwev hwreg hwsent
    rw [sweepPass_single w eid e now2 hwev hw2]
    unfold MemStorage.sendReminderNotifications
    rw [hwreg]
    show List.foldl (reminderAttempt e ReminderKind.r24h now2) w [uid] = w
    rw [List.foldl_cons, reminderAttempt_skips w e ReminderKind.r24h now2 uid hwsent,
      List.foldl_nil]
  rw [sweepPass_single s eid e now1 hev hw1]
  have hsend1 : s.sendReminderNotifications e ReminderKind.r24h now1 =
      reminderAttempt e ReminderKind.r24h now1 s uid := by
    unfold MemStorage.sendReminderNotifications
    rw [hreg]
    show List.foldl (reminderAttempt e ReminderKind.r24h now1) s [uid] =
      reminderAttempt e ReminderKind.r24h now1 s uid
    rw [List.foldl_cons, List.foldl_nil]
  rw [hsend1]
  rw [reminderAttempt_creates s e ReminderKind.r24h now1 uid u hsent huser
    (by simpa [reminderPref] using hpref)]
  rw [key]
  · unfold notifCountP
    dsimp only
    rw [mapSet_eq_append _ _ _ (mapGet_none_of_keys_lt hfresh)]
    simp [List.countP_append, List.countP_cons]
  · exact hev
  · exact hreg
  · simp

/-- C6 witness: the concrete one-event one-user store swept at two instants
inside the 24-hour window. -/
theorem claim6_reminder_dedup_witness :
    notifCountP ((sEx6.reminderSweepPass 86400000).reminderSweepPass 86460000)
        (fun n => decide (n.userId = 4 ∧ n.eventId = some eEx6.id ∧
          n.reminderType = some ReminderKind.r24h)) =
      notifCountP sEx6
        (fun n => decide (n.userId = 4 ∧ n.eventId = some eEx6.id ∧
          n.reminderType = some ReminderKind.r24h)) + 1 :=
  claim6_reminder_dedup sEx6 30 4 eEx6 uEx6 86400000 86460000 rfl rfl (by decide)
    (by decide) rfl (by decide) (by decide) (by decide) (by decide)

end College
